import Mathlib

/-!
Verification development for the router-fusion route-discovery pipeline.

The pipeline scans a project tree for .js/.ts files, loads each file as a
module, classifies the loaded value structurally (single router, whole
application, container of routers, not routable) and mounts every router it
finds onto the target application, in scan order.  We give a shallow
embedding of the source functions (getAllJsTsFiles, filterFileAndFolder,
handleExpressRouter, fuseRoutes) and prove the spec claims about them.
-/

namespace RouterFusion

/-- JavaScript values, as far as the pipeline inspects them: callable values
(carrying the verdict of the external router-shape predicate, their own
enumerable properties, and the routes they declare), plain keyed objects,
numbers, and undefined.  Property lists keep the insertion order that a
JavaScript for-in loop observes. -/
inductive JSValue : Type where
  | vfun (isRouter : Bool) (props : List (String × JSValue)) (routes : List (String × String))
  | vobj (props : List (String × JSValue))
  | vnum (n : Int)
  | vundefined
deriving Repr

/-- Modelled from the spec: the router-shape predicate of the external
express-routes-extractor collaborator (out of scope per the spec).  Routers
in the target ecosystem are callable, so the oracle verdict is carried on
callable values and is false elsewhere. -/
def isExpressRouter : JSValue → Bool
  | .vfun r _ _ => r
  | _ => false

/-- The JavaScript test: typeof v === function. -/
def isFunction : JSValue → Bool
  | .vfun _ _ _ => true
  | _ => false

/-- The JavaScript test: typeof v === object (plain keyed containers). -/
def typeofObject : JSValue → Bool
  | .vobj _ => true
  | _ => false

/-- JavaScript truthiness of the values in the model. -/
def truthy : JSValue → Bool
  | .vfun _ _ _ => true
  | .vobj _ => true
  | .vnum n => n != 0
  | .vundefined => false

/-- Own enumerable properties of a value, in for-in order. -/
def propsOf : JSValue → List (String × JSValue)
  | .vfun _ ps _ => ps
  | .vobj ps => ps
  | _ => []

/-- The JavaScript test: v.hasOwnProperty k. -/
def hasOwn (v : JSValue) (k : String) : Bool :=
  (propsOf v).any (fun kv => kv.1 == k)

/-- Property access v[k], yielding undefined when the key is absent (this also
models the optional-chaining access used for the default slot). -/
def getProp (v : JSValue) (k : String) : JSValue :=
  match (propsOf v).find? (fun kv => kv.1 == k) with
  | some kv => kv.2
  | none => .vundefined

/-- Routes declared inside a router value (method, path). -/
def routesOf : JSValue → List (String × String)
  | .vfun _ _ rs => rs
  | _ => []

/-- One mount on the application: the optional mount path given to app.use
(none for the bare one-argument form) and the mounted value. -/
abbrev Mount := Option String × JSValue

/-- The mutable application, as the ordered list of mounts performed on it. -/
abbrev AppState := List Mount

/-- app.use(r): the bare one-argument mount, no mount path. -/
def appUse (app : AppState) (r : JSValue) : AppState :=
  app ++ [(none, r)]

/-- The callable the pipeline registers at the diagnostic path. -/
def helpHandlerVal : JSValue := .vfun false [] []

/-- app.use with an explicit mount path, used only for the diagnostic route. -/
def appUseHelp (app : AppState) : AppState :=
  app ++ [(some "/help", helpHandlerVal)]

/-- The body of the for-in loop of handleExpressRouter over a container:
a member that is callable with an own stack property and passes the external
router-shape check is mounted bare, everything else is ignored. -/
def containerStep (a : AppState) (kv : String × JSValue) : AppState :=
  if isFunction kv.2 && hasOwn kv.2 "stack" then
    if isExpressRouter kv.2 then appUse a kv.2 else a
  else a

/-- Which container member (if any) the loop body mounts. -/
def containerPick (kv : String × JSValue) : Option JSValue :=
  if isFunction kv.2 && hasOwn kv.2 "stack" && isExpressRouter kv.2 then
    some kv.2
  else none

/-- Embedding of handleExpressRouter: classify the loaded value and mount what
qualifies.  First branch: application-shaped values (callable with own use and
handle properties) are left unmounted.  Second branch: a single router
(callable with an own stack property) is mounted bare.  Third branch: a plain
object is scanned key by key and every router-shaped member is mounted. -/
def handleExpressRouter (app : AppState) (routerModule : JSValue) : AppState :=
  let haveAnyRoutes := isExpressRouter routerModule
  if haveAnyRoutes && isFunction routerModule && hasOwn routerModule "use"
      && hasOwn routerModule "handle" then
    app
  else if haveAnyRoutes && truthy routerModule && isFunction routerModule
      && hasOwn routerModule "stack" then
    appUse app routerModule
  else if typeofObject routerModule then
    (propsOf routerModule).foldl containerStep app
  else
    app

/-- The routers handleExpressRouter mounts for a value, in mounting order:
nothing for application-shaped values, the value itself for a single router,
and the qualifying members in key order for a container. -/
def valueMounts (v : JSValue) : List JSValue :=
  if isExpressRouter v && isFunction v && hasOwn v "use" && hasOwn v "handle" then
    []
  else if isExpressRouter v && truthy v && isFunction v && hasOwn v "stack" then
    [v]
  else if typeofObject v then
    (propsOf v).filterMap containerPick
  else
    []

theorem container_foldl_eq (ps : List (String × JSValue)) :
    ∀ app : AppState,
      ps.foldl containerStep app
      = app ++ (ps.filterMap containerPick).map (fun r => ((none : Option String), r)) := by
  induction ps with
  | nil => intro app; simp
  | cons kv rest ih =>
    intro app
    rw [List.foldl_cons, List.filterMap_cons, ih]
    by_cases h1 : (isFunction kv.2 && hasOwn kv.2 "stack") = true
    · by_cases h2 : isExpressRouter kv.2 = true
      · have hs : containerStep app kv = appUse app kv.2 := by
          simp [containerStep, h1, h2]
        have hp : containerPick kv = some kv.2 := by
          have h1a := h1
          rw [Bool.and_eq_true] at h1a
          simp [containerPick, h1a.1, h1a.2, h2]
        rw [hs, hp]
        simp [appUse]
      · have hs : containerStep app kv = app := by
          simp [containerStep, h1, h2]
        have hp : containerPick kv = none := by
          simp only [Bool.not_eq_true] at h2
          simp [containerPick, h2]
        rw [hs, hp]
    · cases hf : isFunction kv.2 <;> cases hh : hasOwn kv.2 "stack" <;>
        simp [hf, hh] at h1 <;>
        simp [containerStep, containerPick, hf, hh]

/-- handleExpressRouter only appends bare mounts, and appends exactly
valueMounts in order. -/
theorem handleExpressRouter_eq (app : AppState) (v : JSValue) :
    handleExpressRouter app v
      = app ++ (valueMounts v).map (fun r => ((none : Option String), r)) := by
  unfold handleExpressRouter valueMounts
  by_cases h1 : (isExpressRouter v && isFunction v && hasOwn v "use" && hasOwn v "handle") = true
  · simp [h1]
  · by_cases h2 : (isExpressRouter v && truthy v && isFunction v && hasOwn v "stack") = true
    · simp [h1, h2, appUse]
    · by_cases h3 : typeofObject v = true
      · simp [h1, h2, h3, container_foldl_eq]
      · simp [h1, h2, h3]

/-- The two permanent default folder exclusions. -/
def DEFAULT_EXCLUDE_FOLDERS : List String := ["node_modules", ".git"]

mutual
/-- A filesystem tree as the scanner observes it through readdir and stat:
regular files, listable directories holding their entries in readdir order,
and directories whose stat succeeds but whose listing fails. -/
inductive FSEntry : Type where
  | file (name : String)
  | dir (name : String) (children : FSEntries)
  | unreadableDir (name : String)
/-- The entries of one directory, in readdir order. -/
inductive FSEntries : Type where
  | nil
  | cons (head : FSEntry) (tail : FSEntries)
end

/-- Build a directory listing from an ordinary list. -/
def FSEntries.ofList : List FSEntry → FSEntries
  | [] => .nil
  | e :: rest => .cons e (FSEntries.ofList rest)

/-- path.join for the two-argument uses in the source. -/
def pathJoin (a b : String) : String := a ++ "/" ++ b

/-- Character-list test used to embed the JavaScript string operations: does
the first list start the second. -/
def listStarts : List Char → List Char → Bool
  | [], _ => true
  | _ :: _, [] => false
  | a :: as, b :: bs => a == b && listStarts as bs

/-- Embedding of the JavaScript test s.endsWith(pat). -/
def jsEndsWith (s pat : String) : Bool :=
  listStarts pat.data.reverse s.data.reverse

/-- Character-list occurrence test: does the pattern occur somewhere in the
list. -/
def listHasSub (pat : List Char) : List Char → Bool
  | [] => listStarts pat []
  | b :: bs => listStarts pat (b :: bs) || listHasSub pat bs

/-- Embedding of the JavaScript test s.includes(pat). -/
def containsSub (s pat : String) : Bool :=
  listHasSub pat.data s.data

/-- Split a character list on a separator character; splitting the empty list
yields one empty piece, matching the JavaScript split semantics. -/
def splitChar (sep : Char) : List Char → List (List Char)
  | [] => [[]]
  | c :: rest =>
    match splitChar sep rest with
    | [] => [[]]
    | cur :: done =>
      if c == sep then [] :: cur :: done
      else (c :: cur) :: done

/-- Embedding of the JavaScript call str.split(" "). -/
def jsSplitOnSpace (s : String) : List String :=
  (splitChar ' ' s.data).map (fun cs => String.mk cs)

/-- The recognized source extensions test of the scanner:
file.endsWith(".js") || file.endsWith(".ts"). -/
def isJsTsName (name : String) : Bool :=
  jsEndsWith name ".js" || jsEndsWith name ".ts"

/-- The body of getAllJsTsFiles after readdir: iterate the entries in listing
order, pushing onto the jsTsFiles accumulator; recurse into directories not
named in excludeFolders; a directory whose stat succeeds but whose listing
fails raises, aborting the whole scan; a non-recursed entry whose name has a
recognized extension and is not an excluded file is pushed. -/
def scanLoop (exF exFi : List String) : String → FSEntries → List String →
    Except String (List String)
  | _, .nil, acc => .ok acc
  | dirPath, .cons (.file name) rest, acc =>
    if isJsTsName name && !(exFi.contains name) then
      scanLoop exF exFi dirPath rest (acc ++ [pathJoin dirPath name])
    else
      scanLoop exF exFi dirPath rest acc
  | dirPath, .cons (.dir name cs) rest, acc =>
    if !(exF.contains name) then
      match scanLoop exF exFi (pathJoin dirPath name) cs [] with
      | .error e => .error e
      | .ok sub => scanLoop exF exFi dirPath rest (acc ++ sub)
    else if isJsTsName name && !(exFi.contains name) then
      scanLoop exF exFi dirPath rest (acc ++ [pathJoin dirPath name])
    else
      scanLoop exF exFi dirPath rest acc
  | dirPath, .cons (.unreadableDir name) rest, acc =>
    if !(exF.contains name) then
      .error (pathJoin dirPath name)
    else if isJsTsName name && !(exFi.contains name) then
      scanLoop exF exFi dirPath rest (acc ++ [pathJoin dirPath name])
    else
      scanLoop exF exFi dirPath rest acc

/-- Embedding of getAllJsTsFiles: list the root directory and run the
collection loop; a root that cannot be listed is the fatal DirectoryReadError,
carrying the offending path. -/
def getAllJsTsFiles (directoryPath : String) (excludeFolders excludeFiles : List String)
    (root : FSEntry) : Except String (List String) :=
  match root with
  | .dir _ children => scanLoop excludeFolders excludeFiles directoryPath children []
  | _ => .error directoryPath

/-- The candidate list as a direct structural recursion over the tree (no
accumulator): the canonical depth-first emission order, a pure function of the
tree contents.  Used to state that the implemented scan computes exactly
this function. -/
def scanSpec (exF exFi : List String) : String → FSEntries →
    Except String (List String)
  | _, .nil => .ok []
  | dirPath, .cons (.file name) rest =>
    if isJsTsName name && !(exFi.contains name) then
      (scanSpec exF exFi dirPath rest).map (fun l => pathJoin dirPath name :: l)
    else
      scanSpec exF exFi dirPath rest
  | dirPath, .cons (.dir name cs) rest =>
    if !(exF.contains name) then
      match scanSpec exF exFi (pathJoin dirPath name) cs with
      | .error e => .error e
      | .ok sub => (scanSpec exF exFi dirPath rest).map (fun l => sub ++ l)
    else if isJsTsName name && !(exFi.contains name) then
      (scanSpec exF exFi dirPath rest).map (fun l => pathJoin dirPath name :: l)
    else
      scanSpec exF exFi dirPath rest
  | dirPath, .cons (.unreadableDir name) rest =>
    if !(exF.contains name) then
      .error (pathJoin dirPath name)
    else if isJsTsName name && !(exFi.contains name) then
      (scanSpec exF exFi dirPath rest).map (fun l => pathJoin dirPath name :: l)
    else
      scanSpec exF exFi dirPath rest

/-- Canonical form of the whole scan. -/
def getAllJsTsFilesSpec (directoryPath : String) (excludeFolders excludeFiles : List String)
    (root : FSEntry) : Except String (List String) :=
  match root with
  | .dir _ children => scanSpec excludeFolders excludeFiles directoryPath children
  | _ => .error directoryPath

set_option maxHeartbeats 1000000 in
theorem scanLoop_eq (exF exFi : List String) (dirPath : String) (l : FSEntries)
    (acc : List String) :
    scanLoop exF exFi dirPath l acc
      = (scanSpec exF exFi dirPath l).map (fun r => acc ++ r) := by
  induction dirPath, l, acc using scanLoop.induct exF exFi with
  | case1 dirPath acc => simp [scanLoop, scanSpec, Except.map]
  | case2 dirPath name rest acc hc ih =>
    rw [scanLoop, scanSpec, if_pos hc, if_pos hc, ih]
    cases scanSpec exF exFi dirPath rest <;> simp [Except.map]
  | case3 dirPath name rest acc hc ih =>
    rw [scanLoop, scanSpec, if_neg hc, if_neg hc, ih]
  | case4 dirPath name cs rest acc hc e hsub ih =>
    have h2 := hsub
    rw [ih] at h2
    rw [scanLoop, scanSpec, if_pos hc, if_pos hc, hsub]
    cases hspec : scanSpec exF exFi (pathJoin dirPath name) cs with
    | error e2 =>
      rw [hspec] at h2
      simp [Except.map] at h2
      subst h2
      simp [Except.map]
    | ok sub =>
      rw [hspec] at h2
      simp [Except.map] at h2
  | case5 dirPath name cs rest acc hc sub hsub ih ih2 =>
    have h2 := hsub
    rw [ih] at h2
    rw [scanLoop, scanSpec, if_pos hc, if_pos hc, hsub]
    cases hspec : scanSpec exF exFi (pathJoin dirPath name) cs with
    | error e2 =>
      rw [hspec] at h2
      simp [Except.map] at h2
    | ok sub2 =>
      rw [hspec] at h2
      simp [Except.map] at h2
      subst h2
      cases hrest : scanSpec exF exFi dirPath rest <;> simp [Except.map, hrest, ih2]
  | case6 dirPath name cs rest acc hc hc2 ih =>
    rw [scanLoop, scanSpec, if_neg hc, if_neg hc, if_pos hc2, if_pos hc2, ih]
    cases scanSpec exF exFi dirPath rest <;> simp [Except.map]
  | case7 dirPath name cs rest acc hc hc2 ih =>
    rw [scanLoop, scanSpec, if_neg hc, if_neg hc, if_neg hc2, if_neg hc2, ih]
  | case8 dirPath name rest acc hc =>
    rw [scanLoop, scanSpec, if_pos hc, if_pos hc]
    simp [Except.map]
  | case9 dirPath name rest acc hc hc2 ih =>
    rw [scanLoop, scanSpec, if_neg hc, if_neg hc, if_pos hc2, if_pos hc2, ih]
    cases scanSpec exF exFi dirPath rest <;> simp [Except.map]
  | case10 dirPath name rest acc hc hc2 ih =>
    rw [scanLoop, scanSpec, if_neg hc, if_neg hc, if_neg hc2, if_neg hc2, ih]

/-- Embedding of filterFileAndFolder: split the exclude string on single
spaces; tokens containing ".js" or ".ts" as a substring become the excluded
file names, every other token becomes an excluded folder name. -/
def filterFileAndFolder (str : String) : List String × List String :=
  let arr := jsSplitOnSpace str
  let files := arr.filter (fun elem => containsSub elem ".js" || containsSub elem ".ts")
  let folders := arr.filter (fun elem => !(files.contains elem))
  (files, folders)

/-- Outcome of requiring a candidate file: a value, or a raised error (the
module loader is external I/O, so the run is parameterized by it). -/
inductive LoadResult : Type where
  | ok (v : JSValue)
  | loadThrew
deriving Repr

/-- The per-candidate body of the fuseRoutes loop: require the file inside a
try block whose catch swallows the error, then hand a truthy loaded value to
handleExpressRouter. -/
def mountCandidate (requireModule : String → LoadResult) (app : AppState)
    (file : String) : AppState :=
  match requireModule file with
  | .loadThrew => app
  | .ok v => if truthy v then handleExpressRouter app v else app

/-- The candidate-list computation at the head of fuseRoutes: parse the
exclude filter, union the caller folder exclusions with the permanent
defaults, and scan the tree. -/
def scanOf (excludeFilter projectPath : String) (root : FSEntry) :
    Except String (List String) :=
  let ff := filterFileAndFolder excludeFilter
  getAllJsTsFiles projectPath (DEFAULT_EXCLUDE_FOLDERS ++ ff.2) ff.1 root

/-- Embedding of fuseRoutes: collect the candidate list, then (only on scan
success) mount candidates in list order and finally attach the diagnostic
handler when asked.  The first component carries the propagated fatal error;
the second is the application state after the run. -/
def fuseRoutes (app : AppState) (excludeFilter : String) (projectPath : String)
    (root : FSEntry) (requireModule : String → LoadResult) (helpRoute : Bool) :
    Option String × AppState :=
  match scanOf excludeFilter projectPath root with
  | .error e => (some e, app)
  | .ok files =>
    let app1 := files.foldl (mountCandidate requireModule) app
    (none, if helpRoute then appUseHelp app1 else app1)

/-- The routers one candidate contributes, in mounting order. -/
def candidateMounts (requireModule : String → LoadResult) (file : String) :
    List JSValue :=
  match requireModule file with
  | .loadThrew => []
  | .ok v => if truthy v then valueMounts v else []

/-- Concatenation, in candidate order, of the routers each candidate mounts. -/
def allMounts (requireModule : String → LoadResult) : List String → List JSValue
  | [] => []
  | f :: rest => candidateMounts requireModule f ++ allMounts requireModule rest

theorem mountCandidate_eq (requireModule : String → LoadResult) (app : AppState)
    (file : String) :
    mountCandidate requireModule app file
      = app ++ (candidateMounts requireModule file).map
          (fun r => ((none : Option String), r)) := by
  unfold mountCandidate candidateMounts
  cases requireModule file with
  | loadThrew => simp
  | ok v =>
    by_cases ht : truthy v = true
    · simp [ht, handleExpressRouter_eq]
    · simp [ht]

theorem mountLoop_eq (requireModule : String → LoadResult) (files : List String) :
    ∀ app : AppState,
      files.foldl (mountCandidate requireModule) app
        = app ++ (allMounts requireModule files).map
            (fun r => ((none : Option String), r)) := by
  induction files with
  | nil => intro app; simp [allMounts]
  | cons f rest ih =>
    intro app
    rw [List.foldl_cons, ih, mountCandidate_eq]
    simp [allMounts]

/-- Modelled from the spec: the external route-extraction collaborator reads
the live registration state of the application and reports the method/path
descriptors of every route registered through a bare mount; the diagnostic
handler (the only mount carrying an explicit mount path) is excluded from the
table it reports. -/
def extractExpressRoutes (app : AppState) : List (String × String) :=
  app.foldr
    (fun m acc =>
      (match m.1 with
       | none => routesOf m.2
       | some _ => []) ++ acc)
    []

/-- The body of the diagnostic handler registered at the "/help" path: on
every invocation it runs the extraction over the application as it is at that
moment and serializes the result. -/
def helpHandlerBody (appAtInvocation : AppState) : List (String × String) :=
  extractExpressRoutes appAtInvocation

theorem extractExpressRoutes_append (a b : AppState) :
    extractExpressRoutes (a ++ b)
      = extractExpressRoutes a ++ extractExpressRoutes b := by
  unfold extractExpressRoutes
  induction a with
  | nil => simp
  | cons m rest ih => simp [ih]

/-- The declared routes of a list of routers, in order. -/
def declaredRoutes : List JSValue → List (String × String)
  | [] => []
  | r :: rest => routesOf r ++ declaredRoutes rest

theorem extract_bare_mounts (rs : List JSValue) :
    extractExpressRoutes (rs.map (fun r => ((none : Option String), r)))
      = declaredRoutes rs := by
  induction rs with
  | nil => rfl
  | cons r rest ih =>
    simp only [List.map_cons]
    unfold extractExpressRoutes at *
    simp [ih, declaredRoutes]

namespace IndexJs

/-- The body of the for-in loop of the index.js fuseRoutes variant: a member
passing the external router-shape check is mounted; otherwise its default slot
is tried; otherwise the member is ignored. -/
def memberStep (a : AppState) (kv : String × JSValue) : AppState :=
  if isExpressRouter kv.2 then appUse a kv.2
  else if isExpressRouter (getProp kv.2 "default") then
    appUse a (getProp kv.2 "default")
  else a

/-- Which member (directly or through its default slot) the loop body mounts. -/
def memberPick (kv : String × JSValue) : Option JSValue :=
  if isExpressRouter kv.2 then some kv.2
  else if isExpressRouter (getProp kv.2 "default") then
    some (getProp kv.2 "default")
  else none

/-- Embedding of the per-file body of the index.js fuseRoutes loop: require
the file (a raised error is caught, leaving the module undefined and mounting
nothing), iterate the own keys of the loaded value mounting router-shaped
members directly or through their default slot, then mount the module itself
when it is truthy and router-shaped. -/
def mountFile (app : AppState) (lr : LoadResult) : AppState :=
  match lr with
  | .loadThrew => app
  | .ok m =>
    let app1 := (propsOf m).foldl memberStep app
    if truthy m && isExpressRouter m then appUse app1 m else app1

theorem member_foldl_eq (ps : List (String × JSValue)) :
    ∀ app : AppState,
      ps.foldl memberStep app
        = app ++ (ps.filterMap memberPick).map (fun r => ((none : Option String), r)) := by
  induction ps with
  | nil => intro app; simp
  | cons kv rest ih =>
    intro app
    rw [List.foldl_cons, List.filterMap_cons, ih]
    by_cases h1 : isExpressRouter kv.2 = true
    · simp [memberStep, memberPick, h1, appUse]
    · by_cases h2 : isExpressRouter (getProp kv.2 "default") = true
      · simp [memberStep, memberPick, h1, h2, appUse]
      · simp [memberStep, memberPick, h1, h2]

end IndexJs

/-- The implemented scan computes the canonical structural function. -/
theorem getAll_eq_spec (directoryPath : String) (excludeFolders excludeFiles : List String)
    (root : FSEntry) :
    getAllJsTsFiles directoryPath excludeFolders excludeFiles root
      = getAllJsTsFilesSpec directoryPath excludeFolders excludeFiles root := by
  cases root with
  | dir n cs =>
    simp only [getAllJsTsFiles, getAllJsTsFilesSpec]
    rw [scanLoop_eq]
    cases scanSpec excludeFolders excludeFiles directoryPath cs <;> simp [Except.map]
  | file n => rfl
  | unreadableDir n => rfl

mutual
/-- Delete everything beneath folders carrying one of the two permanently
excluded names: such a directory keeps its name but loses all of its entries;
every other entry keeps its structure with its own subtrees pruned. -/
def pruneEntry : FSEntry → FSEntry
  | .file n => .file n
  | .unreadableDir n => .unreadableDir n
  | .dir n cs =>
    if DEFAULT_EXCLUDE_FOLDERS.contains n then .dir n .nil
    else .dir n (pruneEntries cs)
/-- Prune every entry of one directory listing. -/
def pruneEntries : FSEntries → FSEntries
  | .nil => .nil
  | .cons e rest => .cons (pruneEntry e) (pruneEntries rest)
end

/-- Prune a tree below its root: the scanner lists the root directory it is
handed regardless of that root's own name, so only the subtrees beneath
folders named in the permanent defaults are deleted. -/
def pruneDefaultSubtrees : FSEntry → FSEntry
  | .dir n cs => .dir n (pruneEntries cs)
  | e => e

theorem pruneEntry_dir_keep (name : String) (cs : FSEntries)
    (h : DEFAULT_EXCLUDE_FOLDERS.contains name = false) :
    pruneEntry (.dir name cs) = .dir name (pruneEntries cs) := by
  unfold pruneEntry
  rw [h]
  simp

theorem pruneEntry_dir_drop (name : String) (cs : FSEntries)
    (h : DEFAULT_EXCLUDE_FOLDERS.contains name = true) :
    pruneEntry (.dir name cs) = .dir name .nil := by
  unfold pruneEntry
  rw [h]
  simp

set_option maxHeartbeats 1000000 in
theorem scanLoop_prune (exF exFi : List String)
    (hex : ∀ d ∈ DEFAULT_EXCLUDE_FOLDERS, exF.contains d = true) :
    ∀ (dirPath : String) (l : FSEntries) (acc : List String),
      scanLoop exF exFi dirPath (pruneEntries l) acc
        = scanLoop exF exFi dirPath l acc := by
  intro dirPath l acc
  induction dirPath, l, acc using scanLoop.induct exF exFi with
  | case1 dirPath acc => rfl
  | case2 dirPath name rest acc hc ih =>
    simp only [pruneEntries, pruneEntry]
    conv_lhs => rw [scanLoop]
    conv_rhs => rw [scanLoop]
    rw [if_pos hc, if_pos hc, ih]
  | case3 dirPath name rest acc hc ih =>
    simp only [pruneEntries, pruneEntry]
    conv_lhs => rw [scanLoop]
    conv_rhs => rw [scanLoop]
    rw [if_neg hc, if_neg hc, ih]
  | case4 dirPath name cs rest acc hc e hsub ih =>
    have hcf : exF.contains name = false := by simpa using hc
    have hnd : DEFAULT_EXCLUDE_FOLDERS.contains name = false := by
      cases hb : DEFAULT_EXCLUDE_FOLDERS.contains name
      · rfl
      · rw [hex name (List.elem_iff.mp hb)] at hcf
        exact absurd hcf (by simp)
    simp only [pruneEntries]
    rw [pruneEntry_dir_keep name cs hnd]
    conv_lhs => rw [scanLoop]
    conv_rhs => rw [scanLoop]
    rw [if_pos hc, if_pos hc, ih, hsub]
  | case5 dirPath name cs rest acc hc sub hsub ih ih2 =>
    have hcf : exF.contains name = false := by simpa using hc
    have hnd : DEFAULT_EXCLUDE_FOLDERS.contains name = false := by
      cases hb : DEFAULT_EXCLUDE_FOLDERS.contains name
      · rfl
      · rw [hex name (List.elem_iff.mp hb)] at hcf
        exact absurd hcf (by simp)
    simp only [pruneEntries]
    rw [pruneEntry_dir_keep name cs hnd]
    conv_lhs => rw [scanLoop]
    conv_rhs => rw [scanLoop]
    rw [if_pos hc, if_pos hc, ih, hsub]
    exact ih2
  | case6 dirPath name cs rest acc hc hc2 ih =>
    simp only [pruneEntries]
    cases hb : DEFAULT_EXCLUDE_FOLDERS.contains name
    · rw [pruneEntry_dir_keep name cs hb]
      conv_lhs => rw [scanLoop]
      conv_rhs => rw [scanLoop]
      rw [if_neg hc, if_neg hc, if_pos hc2, if_pos hc2, ih]
    · rw [pruneEntry_dir_drop name cs hb]
      conv_lhs => rw [scanLoop]
      conv_rhs => rw [scanLoop]
      rw [if_neg hc, if_neg hc, if_pos hc2, if_pos hc2, ih]
  | case7 dirPath name cs rest acc hc hc2 ih =>
    simp only [pruneEntries]
    cases hb : DEFAULT_EXCLUDE_FOLDERS.contains name
    · rw [pruneEntry_dir_keep name cs hb]
      conv_lhs => rw [scanLoop]
      conv_rhs => rw [scanLoop]
      rw [if_neg hc, if_neg hc, if_neg hc2, if_neg hc2, ih]
    · rw [pruneEntry_dir_drop name cs hb]
      conv_lhs => rw [scanLoop]
      conv_rhs => rw [scanLoop]
      rw [if_neg hc, if_neg hc, if_neg hc2, if_neg hc2, ih]
  | case8 dirPath name rest acc hc =>
    simp only [pruneEntries, pruneEntry]
    conv_lhs => rw [scanLoop]
    conv_rhs => rw [scanLoop]
    rw [if_pos hc, if_pos hc]
  | case9 dirPath name rest acc hc hc2 ih =>
    simp only [pruneEntries, pruneEntry]
    conv_lhs => rw [scanLoop]
    conv_rhs => rw [scanLoop]
    rw [if_neg hc, if_neg hc, if_pos hc2, if_pos hc2, ih]
  | case10 dirPath name rest acc hc hc2 ih =>
    simp only [pruneEntries, pruneEntry]
    conv_lhs => rw [scanLoop]
    conv_rhs => rw [scanLoop]
    rw [if_neg hc, if_neg hc, if_neg hc2, if_neg hc2, ih]

theorem filter_not_contains (p : String → Bool) (arr : List String) :
    arr.filter (fun e => !((arr.filter p).contains e))
      = arr.filter (fun e => !(p e)) := by
  apply List.filter_congr
  intro a ha
  have hc : (arr.filter p).contains a = p a := by
    by_cases hp : p a = true
    · have hmem : a ∈ arr.filter p := List.mem_filter.mpr ⟨ha, hp⟩
      rw [hp]
      exact List.elem_iff.mpr hmem
    · rw [Bool.not_eq_true] at hp
      rw [hp]
      rw [Bool.eq_false_iff]
      intro hct
      have hmem := List.elem_iff.mp hct
      have := (List.mem_filter.mp hmem).2
      rw [hp] at this
      exact Bool.false_ne_true this
  rw [hc]

theorem fuseRoutes_err (app : AppState) (excludeFilter projectPath : String)
    (root : FSEntry) (req : String → LoadResult) (help : Bool) (e : String)
    (h : scanOf excludeFilter projectPath root = .error e) :
    fuseRoutes app excludeFilter projectPath root req help = (some e, app) := by
  unfold fuseRoutes
  rw [h]

theorem fuseRoutes_ok (app : AppState) (excludeFilter projectPath : String)
    (root : FSEntry) (req : String → LoadResult) (help : Bool) (files : List String)
    (h : scanOf excludeFilter projectPath root = .ok files) :
    fuseRoutes app excludeFilter projectPath root req help
      = (none,
          if help then
            appUseHelp (app ++ (allMounts req files).map
              (fun r => ((none : Option String), r)))
          else
            app ++ (allMounts req files).map
              (fun r => ((none : Option String), r))) := by
  unfold fuseRoutes
  rw [h]
  simp only [mountLoop_eq]

theorem truthy_of_isFunction (v : JSValue) (h : isFunction v = true) :
    truthy v = true := by
  cases v <;> simp [isFunction, truthy] at h ⊢

/-- Modelled from the spec: a token that looks like a file name carrying a
recognized source extension, where the recognized source extensions are
exactly those the scanner emits (.js and .ts). -/
def looksLikeSourceFileName (t : String) : Bool :=
  jsEndsWith t ".js" || jsEndsWith t ".ts"

/-- A router value used in concrete runs. -/
def sampleRouterA : JSValue := .vfun true [("stack", .vundefined)] [("GET", "/a")]

/-- Another router value used in concrete runs. -/
def sampleRouterC : JSValue := .vfun true [("stack", .vundefined)] [("GET", "/c")]

/-- A value with the structural signature of the whole application: callable,
passing the router-shape check, with own use, handle and stack properties. -/
def sampleAppLike : JSValue :=
  .vfun true [("use", .vundefined), ("handle", .vundefined), ("stack", .vundefined)] []

/-- A small project tree holding candidates inside and outside the two
permanently excluded folders. -/
def sampleTree : FSEntry :=
  .dir "root" (FSEntries.ofList
    [.dir "node_modules" (FSEntries.ofList [.file "evil.js"]),
     .file "ok.js",
     .dir ".git" (FSEntries.ofList [.file "hook.js"]),
     .dir "sub" (FSEntries.ofList [.file "b.ts", .file "note.txt"])])

/-- A module environment: ok.js loads a router, everything else raises. -/
def sampleReq : String → LoadResult :=
  fun p => if p = "/proj/ok.js" then .ok sampleRouterA else .loadThrew

/-- A tree with an unlistable directory between two candidates. -/
def sampleBadTree : FSEntry :=
  .dir "root" (FSEntries.ofList [.file "a.js", .unreadableDir "locked", .file "b.js"])

/-- A three-candidate flat tree, used to exercise failure isolation. -/
def sampleTreeABC : FSEntry :=
  .dir "root" (FSEntries.ofList [.file "a.js", .file "b.js", .file "c.js"])

/-- A module environment where the middle candidate raises on load. -/
def sampleReqABC : String → LoadResult :=
  fun p =>
    if p = "/proj/a.js" then .ok sampleRouterA
    else if p = "/proj/c.js" then .ok sampleRouterC
    else .loadThrew

/-- C1: for every discovery run, routers are mounted in exactly the order
their owning candidate was emitted by the scanner — the final application is
the initial one extended by the concatenation, in candidate order, of each
candidate's mounts, so no mount for a later candidate precedes one for an
earlier candidate — and a container's members are mounted in the container's
own key order. -/
theorem claim_C1_mount_order (app : AppState) (excludeFilter projectPath : String)
    (root : FSEntry) (req : String → LoadResult) (files : List String)
    (h : scanOf excludeFilter projectPath root = .ok files) :
    fuseRoutes app excludeFilter projectPath root req false
      = (none, app ++ (allMounts req files).map (fun r => ((none : Option String), r)))
    ∧ ∀ ps : List (String × JSValue),
        valueMounts (.vobj ps) = ps.filterMap containerPick := by
  constructor
  · rw [fuseRoutes_ok app excludeFilter projectPath root req false files h]
    simp
  · intro ps
    simp [valueMounts, isExpressRouter, typeofObject, propsOf]

theorem claim_C1_mount_order_witness :
    fuseRoutes [] "" "/proj" sampleTree sampleReq false
      = (none, [] ++ (allMounts sampleReq ["/proj/ok.js", "/proj/sub/b.ts"]).map
          (fun r => ((none : Option String), r)))
    ∧ ∀ ps : List (String × JSValue),
        valueMounts (.vobj ps) = ps.filterMap containerPick :=
  claim_C1_mount_order [] "" "/proj" sampleTree sampleReq
    ["/proj/ok.js", "/proj/sub/b.ts"] (by rfl)

/-- C2: a candidate whose load raises does not abort the run: the pipeline
reports no error, and the mounting pass over a candidate list containing the
failing candidate equals the pass over the list with that candidate removed,
so every other candidate is still loaded, classified and mounted and the
failing one contributes nothing. -/
theorem claim_C2_load_failure_isolated (app : AppState)
    (excludeFilter projectPath : String) (root : FSEntry)
    (req : String → LoadResult) (help : Bool) (xs ys : List String) (p : String)
    (hscan : scanOf excludeFilter projectPath root = .ok (xs ++ p :: ys))
    (hthrow : req p = .loadThrew) :
    (fuseRoutes app excludeFilter projectPath root req help).1 = none
    ∧ (xs ++ p :: ys).foldl (mountCandidate req) app
        = (xs ++ ys).foldl (mountCandidate req) app := by
  constructor
  · rw [fuseRoutes_ok app excludeFilter projectPath root req help (xs ++ p :: ys) hscan]
  · rw [List.foldl_append, List.foldl_append, List.foldl_cons]
    have hskip : mountCandidate req (xs.foldl (mountCandidate req) app) p
        = xs.foldl (mountCandidate req) app := by
      unfold mountCandidate
      rw [hthrow]
    rw [hskip]

theorem claim_C2_load_failure_isolated_witness :
    (fuseRoutes [] "" "/proj" sampleTreeABC sampleReqABC false).1 = none
    ∧ (["/proj/a.js"] ++ "/proj/b.js" :: ["/proj/c.js"]).foldl
        (mountCandidate sampleReqABC) []
        = (["/proj/a.js"] ++ ["/proj/c.js"]).foldl (mountCandidate sampleReqABC) [] :=
  claim_C2_load_failure_isolated [] "" "/proj" sampleTreeABC sampleReqABC false
    ["/proj/a.js"] ["/proj/c.js"] "/proj/b.js" (by rfl) (by rfl)

/-- C3: for every directory tree and every caller exclude filter (the empty
string included), the scan fuseRoutes performs returns exactly the same
result on the tree from which everything beneath any folder named
node_modules or .git has been deleted: no file beneath the two permanent
default exclusions can ever appear in the candidate list, and no caller
filter can reinstate them, because the defaults are always unioned with the
caller folder exclusions. -/
theorem claim_C3_default_exclusions (excludeFilter projectPath : String)
    (root : FSEntry) :
    scanOf excludeFilter projectPath root
      = scanOf excludeFilter projectPath (pruneDefaultSubtrees root) := by
  unfold scanOf
  cases root with
  | file n => rfl
  | unreadableDir n => rfl
  | dir n cs =>
    simp only [pruneDefaultSubtrees, getAllJsTsFiles]
    exact (scanLoop_prune
      (DEFAULT_EXCLUDE_FOLDERS ++ (filterFileAndFolder excludeFilter).2)
      (filterFileAndFolder excludeFilter).1
      (fun d hd => List.elem_iff.mpr (List.mem_append.mpr (Or.inl hd)))
      projectPath cs []).symm

/-- C4: a directory listing failure is the only fatal error class: the run
reports an error exactly when the scan fails, and in that case the error
propagates to the caller with the application exactly as it was handed in —
zero routers mounted, since mounting starts only after the candidate list is
fully collected. -/
theorem claim_C4_directory_error_fatal (app : AppState)
    (excludeFilter projectPath : String) (root : FSEntry)
    (req : String → LoadResult) (help : Bool) (e : String) :
    ((fuseRoutes app excludeFilter projectPath root req help).1 = some e
      ↔ scanOf excludeFilter projectPath root = .error e)
    ∧ (scanOf excludeFilter projectPath root = .error e
        → fuseRoutes app excludeFilter projectPath root req help = (some e, app)) := by
  cases hscan : scanOf excludeFilter projectPath root with
  | error e0 =>
    rw [fuseRoutes_err app excludeFilter projectPath root req help e0 hscan]
    simp
  | ok files =>
    rw [fuseRoutes_ok app excludeFilter projectPath root req help files hscan]
    simp

theorem claim_C4_directory_error_fatal_witness :
    fuseRoutes [] "" "/proj" sampleBadTree sampleReq false = (some "/proj/locked", []) :=
  (claim_C4_directory_error_fatal [] "" "/proj" sampleBadTree sampleReq false
    "/proj/locked").2 (by rfl)

/-- C5: a loaded value with the structural signature of the whole application
(callable, with own use and handle properties at once) is never mounted by the
pipeline, even when it also passes the router-shape check (the external
predicate verdict together with an own stack property). -/
theorem claim_C5_application_like_not_mounted (v : JSValue)
    (hfun : isFunction v = true) (huse : hasOwn v "use" = true)
    (hhandle : hasOwn v "handle" = true) (hrouter : isExpressRouter v = true)
    (hstack : hasOwn v "stack" = true) :
    (∀ app : AppState, handleExpressRouter app v = app)
    ∧ ∀ (req : String → LoadResult) (f : String) (app : AppState),
        req f = .ok v → mountCandidate req app f = app := by
  have hmain : ∀ app : AppState, handleExpressRouter app v = app := by
    intro app
    unfold handleExpressRouter
    rw [hrouter, hfun, huse, hhandle]
    simp
  refine ⟨hmain, fun req f app hreq => ?_⟩
  unfold mountCandidate
  rw [hreq]
  simp [truthy_of_isFunction v hfun, hmain app]

theorem claim_C5_application_like_not_mounted_witness :
    (∀ app : AppState, handleExpressRouter app sampleAppLike = app)
    ∧ ∀ (req : String → LoadResult) (f : String) (app : AppState),
        req f = .ok sampleAppLike → mountCandidate req app f = app :=
  claim_C5_application_like_not_mounted sampleAppLike rfl rfl rfl rfl rfl

/-- C6: when a loaded value is a non-callable keyed container, the index.js
loop mounts exactly the own property values that are router-shaped directly or
through their default slot, in key order, ignoring every other property value
without error; in particular the container with members a = routerA, b = 42
and c = routerC mounts routerA and routerC and skips 42. -/
theorem claim_C6_container_expansion (app : AppState)
    (ps : List (String × JSValue)) :
    IndexJs.mountFile app (.ok (.vobj ps))
      = app ++ (ps.filterMap IndexJs.memberPick).map
          (fun r => ((none : Option String), r))
    ∧ (∀ kv ∈ ps, isExpressRouter kv.2 = false
        → isExpressRouter (getProp kv.2 "default") = false
        → IndexJs.memberPick kv = none)
    ∧ IndexJs.mountFile []
        (.ok (.vobj [("a", sampleRouterA), ("b", .vnum 42), ("c", sampleRouterC)]))
        = [((none : Option String), sampleRouterA), (none, sampleRouterC)] := by
  refine ⟨?_, ?_, by rfl⟩
  · simp [IndexJs.mountFile, propsOf, truthy, isExpressRouter,
      IndexJs.member_foldl_eq]
  · intro kv _ h1 h2
    unfold IndexJs.memberPick
    rw [h1, h2]
    simp

theorem claim_C6_container_expansion_witness :
    IndexJs.mountFile [] (.ok (.vobj [("x", .vundefined)]))
      = [] ++ ([("x", (.vundefined : JSValue))].filterMap IndexJs.memberPick).map
          (fun r => ((none : Option String), r))
    ∧ (∀ kv ∈ [("x", (.vundefined : JSValue))], isExpressRouter kv.2 = false
        → isExpressRouter (getProp kv.2 "default") = false
        → IndexJs.memberPick kv = none)
    ∧ IndexJs.mountFile []
        (.ok (.vobj [("a", sampleRouterA), ("b", .vnum 42), ("c", sampleRouterC)]))
        = [((none : Option String), sampleRouterA), (none, sampleRouterC)] :=
  claim_C6_container_expansion [] [("x", .vundefined)]

/-- C7: the scan is a deterministic function of the tree contents: the
implemented accumulator loop computes exactly the canonical structural
recursion over the tree, so two runs on an unchanged tree produce identical
ordered candidate lists. -/
theorem claim_C7_scan_deterministic (directoryPath : String)
    (excludeFolders excludeFiles : List String) (root : FSEntry) :
    getAllJsTsFiles directoryPath excludeFolders excludeFiles root
      = getAllJsTsFilesSpec directoryPath excludeFolders excludeFiles root :=
  getAll_eq_spec directoryPath excludeFolders excludeFiles root

/-- C8 counterexample: the token x.json does not carry a recognized source
extension, yet filterFileAndFolder classifies it as an excluded file name, so
the filter does not compute the extension-based split the claim states. -/
theorem claim_C8_counterexample :
    (filterFileAndFolder "x.json").1 = ["x.json"]
    ∧ looksLikeSourceFileName "x.json" = false
    ∧ (filterFileAndFolder "x.json").1
        ≠ (jsSplitOnSpace "x.json").filter looksLikeSourceFileName := by
  refine ⟨rfl, rfl, ?_⟩
  intro h
  rw [show (filterFileAndFolder "x.json").1 = ["x.json"] from rfl] at h
  rw [show (jsSplitOnSpace "x.json").filter looksLikeSourceFileName = [] from rfl] at h
  exact List.cons_ne_nil _ _ h

/-- C8 (amended): splitting the exclude filter on spaces yields tokens of
which exactly those containing ".js" or ".ts" as a substring become excluded
file names, and all remaining tokens become excluded folder names; the
example filter "build secrets.js" excludes the folder build and the file
secrets.js. -/
theorem claim_C8_amended (str : String) :
    (filterFileAndFolder str).1
      = (jsSplitOnSpace str).filter
          (fun e => containsSub e ".js" || containsSub e ".ts")
    ∧ (filterFileAndFolder str).2
      = (jsSplitOnSpace str).filter
          (fun e => !(containsSub e ".js" || containsSub e ".ts"))
    ∧ filterFileAndFolder "build secrets.js" = (["secrets.js"], ["build"]) := by
  refine ⟨rfl, ?_, by rfl⟩
  exact filter_not_contains
    (fun e => containsSub e ".js" || containsSub e ".ts") (jsSplitOnSpace str)

/-- C9: with introspection enabled, the run registers the diagnostic handler
at the fixed path, and the handler recomputes the route table from the
application state at invocation time: for any router mounted after discovery
completed, a later invocation reports the old table extended by exactly that
router's routes, so each of its routes appears in the response. -/
theorem claim_C9_introspection_live (app : AppState)
    (excludeFilter projectPath : String) (root : FSEntry)
    (req : String → LoadResult) (a0 : AppState)
    (hrun : fuseRoutes app excludeFilter projectPath root req true = (none, a0)) :
    ((some "/help", helpHandlerVal) ∈ a0
    ∧ (∀ s : AppState, helpHandlerBody s = extractExpressRoutes s)
    ∧ (∀ r : JSValue,
        helpHandlerBody (appUse a0 r) = extractExpressRoutes a0 ++ routesOf r)
    ∧ ∀ (r : JSValue) (mp : String × String),
        mp ∈ routesOf r → mp ∈ helpHandlerBody (appUse a0 r)) := by
  have hlive : ∀ (b : AppState) (r : JSValue),
      helpHandlerBody (appUse b r) = extractExpressRoutes b ++ routesOf r := by
    intro b r
    unfold helpHandlerBody appUse
    rw [extractExpressRoutes_append]
    simp [extractExpressRoutes]
  have hmem : (some "/help", helpHandlerVal) ∈ a0 := by
    cases hscan : scanOf excludeFilter projectPath root with
    | error e =>
      rw [fuseRoutes_err app excludeFilter projectPath root req true e hscan] at hrun
      simp at hrun
    | ok files =>
      rw [fuseRoutes_ok app excludeFilter projectPath root req true files hscan] at hrun
      simp at hrun
      rw [← hrun]
      unfold appUseHelp
      simp
  refine ⟨hmem, fun s => rfl, hlive a0, fun r mp hmp => ?_⟩
  rw [hlive a0 r]
  exact List.mem_append_right _ hmp

theorem claim_C9_introspection_live_witness :
    ((some "/help", helpHandlerVal) ∈ ([(some "/help", helpHandlerVal)] : AppState)
    ∧ (∀ s : AppState, helpHandlerBody s = extractExpressRoutes s)
    ∧ (∀ r : JSValue,
        helpHandlerBody (appUse [(some "/help", helpHandlerVal)] r)
          = extractExpressRoutes [(some "/help", helpHandlerVal)] ++ routesOf r)
    ∧ ∀ (r : JSValue) (mp : String × String),
        mp ∈ routesOf r
        → mp ∈ helpHandlerBody (appUse [(some "/help", helpHandlerVal)] r)) :=
  claim_C9_introspection_live [] "" "/proj" sampleTree (fun _ => .loadThrew)
    [(some "/help", helpHandlerVal)] (by rfl)

/-- C10: every router the pipeline mounts for a candidate is attached by the
bare one-argument mount — no mount path — so the route table of the final
application is the initial table extended by exactly the routes declared
inside the mounted routers, with every path exactly as declared and nothing
namespaced by file location. -/
theorem claim_C10_bare_mounts (app : AppState) (excludeFilter projectPath : String)
    (root : FSEntry) (req : String → LoadResult) (files : List String)
    (hscan : scanOf excludeFilter projectPath root = .ok files) :
    ∃ rs : List JSValue,
      fuseRoutes app excludeFilter projectPath root req false
        = (none, app ++ rs.map (fun r => ((none : Option String), r)))
      ∧ extractExpressRoutes (app ++ rs.map (fun r => ((none : Option String), r)))
          = extractExpressRoutes app ++ declaredRoutes rs := by
  refine ⟨allMounts req files, ?_, ?_⟩
  · rw [fuseRoutes_ok app excludeFilter projectPath root req false files hscan]
    simp
  · rw [extractExpressRoutes_append, extract_bare_mounts]

theorem claim_C10_bare_mounts_witness :
    ∃ rs : List JSValue,
      fuseRoutes [] "" "/proj" sampleTree sampleReq false
        = (none, [] ++ rs.map (fun r => ((none : Option String), r)))
      ∧ extractExpressRoutes ([] ++ rs.map (fun r => ((none : Option String), r)))
          = extractExpressRoutes [] ++ declaredRoutes rs :=
  claim_C10_bare_mounts [] "" "/proj" sampleTree sampleReq
    ["/proj/ok.js", "/proj/sub/b.ts"] (by rfl)

end RouterFusion
